import Mathlib

set_option autoImplicit false

/-!
Shallow embedding of the presentation-exchange matching engine
(pkg/doc/presexch/api.go) and of the credential extension registry of the
verifiable package, from the aries-framework-go repository.

External collaborators (the gval/jsonpath evaluator combined with
verifiable.ParseCredential inside selectByPath, and the base credential
parser used by the extension registry) are abstracted as explicit function
parameters returning Except values, exactly at the call boundaries the Go
code uses. Go nil-pointer dereference is made explicit as a panic outcome.
-/

namespace Verifiable

/-- The base verifiable credential, restricted to the fields the matching
engine and the extension switch inspect: the JSON-LD context sequence, the
type sequence, and an identifier. -/
structure Credential where
  ID : String
  Context : List String
  Types : List String
  deriving DecidableEq, Repr

end Verifiable

namespace Presexch

open Verifiable

/-- A generic JSON value tree: the shape of untyped documents, used for the
custom fields of a presentation. -/
inductive JSONValue where
  | null
  | boolean (b : Bool)
  | num (n : Int)
  | str (s : String)
  | arr (elems : List JSONValue)
  | obj (fields : List (String × JSONValue))
  deriving Repr

/-- The JSONLD context of presentation submissions. -/
def PresentationSubmissionJSONLDContext : String :=
  "https://identity.foundation/presentation-exchange/submission/v1"

/-- The JSONLD type of presentation submissions. -/
def PresentationSubmissionJSONLDType : String := "PresentationSubmission"

def submissionProperty : String := "presentation_submission"

def descriptorMapProperty : String := "descriptor_map"

/-- Input descriptor schema. -/
structure Schema where
  URI : List String
  Name : String
  Purpose : String
  deriving DecidableEq, Repr

/-- Field identifies one or more fields in a credential; the filter is
parsed but not evaluated. -/
structure Field where
  Path : List String
  Filter : List (String × JSONValue)
  deriving Repr

/-- Constraints describe constraints on fields. -/
structure Constraints where
  Fields : List Field
  deriving Repr

/-- Input descriptor. The Schema and Constraints fields are Go pointers,
hence Option. -/
structure InputDescriptor where
  ID : String
  Schema : Option Schema
  Constraints : Option Constraints
  deriving Repr

/-- Presentation definitions. -/
structure PresentationDefinitions where
  Name : String
  Purpose : String
  InputDescriptors : List InputDescriptor
  deriving Repr

/-- Maps an InputDescriptor to a verifiable credential pointed to by the
JSONPath in Path. -/
structure InputDescriptorMapping where
  ID : String
  Path : String
  deriving DecidableEq, Repr

/-- The verifiable presentation, restricted to the fields Match inspects:
context sequence, type sequence and the custom fields document. -/
structure Presentation where
  Context : List String
  Types : List String
  CustomFields : List (String × JSONValue)
  deriving Repr

def stringsContain (s : List String) (val : String) : Bool :=
  match s with
  | [] => false
  | x :: rest => if x = val then true else stringsContain rest val

def stringsIntersect (a b : List String) : Bool :=
  match a with
  | [] => false
  | x :: rest => if stringsContain b x then true else stringsIntersect rest b

def descriptorIDs (input : List InputDescriptor) : List String :=
  input.map (fun d => d.ID)

/-- Loop body of inputDescriptor: first descriptor in the list with the
given id. -/
def findInputDescriptor (id : String) : List InputDescriptor → Option InputDescriptor
  | [] => none
  | d :: rest => if d.ID = id then some d else findInputDescriptor id rest

/-- Finds the first input descriptor with the given id; Go returns a nil
pointer when there is none, hence Option. -/
def PresentationDefinitions.inputDescriptor (p : PresentationDefinitions)
    (id : String) : Option InputDescriptor :=
  findInputDescriptor id p.InputDescriptors

/-- The distinct error outcomes of the matching pipeline, each carrying the
diagnostic data the corresponding Go error message interpolates. -/
inductive MatchError where
  | notASubmissionContext
  | notASubmissionType
  | malformedSubmission (missingProperty : String)
  | descriptorMapDecodeFailed (msg : String)
  | unknownDescriptorID (id : String)
  | selectionFailed (msg : String)
  | schemaMismatch (descriptorID : String) (schemaURIs : List String)
      (credContext : List String)
  | unsatisfiedDescriptor (id : String)
  deriving DecidableEq, Repr

/-- True exactly for the two error outcomes produced by the envelope check
checkJSONLDContextType, the NotASubmission kind of the spec. -/
def MatchError.isNotASubmission : MatchError → Bool
  | MatchError.notASubmissionContext => true
  | MatchError.notASubmissionType => true
  | _ => false

/-- Envelope check: the presentation must carry the submission context and
the submission type. -/
def checkJSONLDContextType (vp : Presentation) : Option MatchError :=
  if !(stringsContain vp.Context PresentationSubmissionJSONLDContext) then
    some MatchError.notASubmissionContext
  else if !(stringsContain vp.Types PresentationSubmissionJSONLDType) then
    some MatchError.notASubmissionType
  else
    none

def lookupField (fields : List (String × JSONValue)) (name : String) :
    Option JSONValue :=
  match fields with
  | [] => none
  | (k, v) :: rest => if k = name then some v else lookupField rest name

/-- Decoding of one string-typed struct field from a JSON object, following
Go json.Unmarshal: an absent or null field leaves the zero value, a string
sets it, any other shape is an unmarshal error. -/
def getStringField (fields : List (String × JSONValue)) (name : String) :
    Except String String :=
  match lookupField fields name with
  | none => Except.ok ""
  | some JSONValue.null => Except.ok ""
  | some (JSONValue.str s) => Except.ok s
  | some _ => Except.error ("cannot unmarshal JSON value into string field " ++ name)

/-- Decoding of one descriptor-map element into an InputDescriptorMapping
pointer, following Go json.Unmarshal into a pointer slice element: null
yields a nil pointer (none), an object decodes fieldwise, anything else is
an unmarshal error. -/
def decodeMapping : JSONValue → Except String (Option InputDescriptorMapping)
  | JSONValue.null => Except.ok none
  | JSONValue.obj fields =>
    match getStringField fields "id" with
    | Except.error e => Except.error e
    | Except.ok id =>
      match getStringField fields "path" with
      | Except.error e => Except.error e
      | Except.ok path => Except.ok (some (InputDescriptorMapping.mk id path))
  | _ => Except.error "cannot unmarshal JSON value into InputDescriptorMapping"

def decodeMappings : List JSONValue → Except String (List (Option InputDescriptorMapping))
  | [] => Except.ok []
  | v :: rest =>
    match decodeMapping v with
    | Except.error e => Except.error e
    | Except.ok m =>
      match decodeMappings rest with
      | Except.error e => Except.error e
      | Except.ok ms => Except.ok (m :: ms)

/-- Submission extraction: the presentation_submission custom field must be
a JSON object whose descriptor_map member is a JSON array; the array is
then decoded into typed mappings. -/
def parseDescriptorMap (vp : Presentation) :
    Except MatchError (List (Option InputDescriptorMapping)) :=
  match lookupField vp.CustomFields submissionProperty with
  | some (JSONValue.obj submission) =>
    match lookupField submission descriptorMapProperty with
    | some (JSONValue.arr descriptorMap) =>
      match decodeMappings descriptorMap with
      | Except.error e => Except.error (MatchError.descriptorMapDecodeFailed e)
      | Except.ok typedDescriptorMap => Except.ok typedDescriptorMap
    | _ => Except.error (MatchError.malformedSubmission descriptorMapProperty)
  | _ => Except.error (MatchError.malformedSubmission submissionProperty)

/-- The result mapping from descriptor ids to credentials, as an
association list with Go map semantics via mapInsert and mapLookup. -/
abbrev ResultMap := List (String × Credential)

def mapLookup (m : ResultMap) (k : String) : Option Credential :=
  match m with
  | [] => none
  | (k2, v) :: rest => if k2 = k then some v else mapLookup rest k

/-- Go map assignment: an existing binding for the key is overwritten,
otherwise the binding is added. -/
def mapInsert (m : ResultMap) (k : String) (v : Credential) : ResultMap :=
  match m with
  | [] => [(k, v)]
  | (k2, v2) :: rest =>
    if k2 = k then (k, v) :: rest else (k2, v2) :: mapInsert rest k v

/-- Abstraction of selectByPath for a fixed presentation document: jsonpath
compilation and evaluation followed by verifiable.ParseCredential, given
just the path expression. -/
abbrev Selector := String → Except String Credential

/-- Outcome of the per-mapping loop of Match: the accumulated result map,
an abort, or a Go nil-pointer dereference panic. -/
inductive ProcessResult where
  | done (result : ResultMap)
  | error (e : MatchError)
  | panic
  deriving DecidableEq, Repr

/-- The per-mapping loop of Match: check the mapping id against the
descriptor ids, select and parse the credential at the mapping path, check
schema conformance, and insert into the result map. A nil mapping pointer
or a nil Schema pointer dereference is a panic. -/
def processMappings (p : PresentationDefinitions) (sel : Selector) :
    List (Option InputDescriptorMapping) → ResultMap → ProcessResult
  | [], result => ProcessResult.done result
  | none :: _, _ => ProcessResult.panic
  | some mapping :: rest, result =>
    if !(stringsContain (descriptorIDs p.InputDescriptors) mapping.ID) then
      ProcessResult.error (MatchError.unknownDescriptorID mapping.ID)
    else
      match sel mapping.Path with
      | Except.error msg => ProcessResult.error (MatchError.selectionFailed msg)
      | Except.ok vc =>
        match p.inputDescriptor mapping.ID with
        | none => ProcessResult.panic
        | some descriptor =>
          match descriptor.Schema with
          | none => ProcessResult.panic
          | some schema =>
            if !(stringsIntersect vc.Context schema.URI) then
              ProcessResult.error
                (MatchError.schemaMismatch descriptor.ID schema.URI vc.Context)
            else
              processMappings p sel rest (mapInsert result mapping.ID vc)

/-- Path of the last descriptor-map entry carrying the given id, if any:
the entry whose credential survives the Go map overwrites. -/
def lastEntryPath : List (Option InputDescriptorMapping) → String → Option String
  | [], _ => none
  | none :: rest, id => lastEntryPath rest id
  | some mapping :: rest, id =>
    match lastEntryPath rest id with
    | some path => some path
    | none => if mapping.ID = id then some mapping.Path else none

/-- First id of the list without a binding in the matched map, in list
order. -/
def firstMissingID (ids : List String) (matched : ResultMap) : Option String :=
  match ids with
  | [] => none
  | id :: rest =>
    match mapLookup matched id with
    | some _ => firstMissingID rest matched
    | none => some id

/-- Ensures the matched credentials meet the submission requirements:
every descriptor id must have a binding; the first missing one is the
error. -/
def PresentationDefinitions.evalSubmissionRequirements
    (p : PresentationDefinitions) (matched : ResultMap) : Option MatchError :=
  match firstMissingID (descriptorIDs p.InputDescriptors) matched with
  | some id => some (MatchError.unsatisfiedDescriptor id)
  | none => none

/-- Overall outcome of Match: a result map, an error, or a panic. -/
inductive MatchResult where
  | ok (result : ResultMap)
  | error (e : MatchError)
  | panic
  deriving DecidableEq, Repr

/-- Match returns the credentials matched against the InputDescriptors
ids: envelope check, submission extraction, the per-mapping loop, then the
submission requirements evaluation. -/
def PresentationDefinitions.Match (p : PresentationDefinitions)
    (vp : Presentation) (sel : Selector) : MatchResult :=
  match checkJSONLDContextType vp with
  | some e => MatchResult.error e
  | none =>
    match parseDescriptorMap vp with
    | Except.error e => MatchResult.error e
    | Except.ok descriptorMap =>
      match processMappings p sel descriptorMap [] with
      | ProcessResult.error e => MatchResult.error e
      | ProcessResult.panic => MatchResult.panic
      | ProcessResult.done result =>
        match p.evalSubmissionRequirements result with
        | some e => MatchResult.error e
        | none => MatchResult.ok result

end Presexch

namespace Verifiable

/-- Modelled from the spec: the typed object returned by the extension
registry, either the base Credential itself or a custom typed variant
produced by a registered producer. The file
pkg/doc/verifiable/credential_extension.go is not under src; only its test
is, so this type follows the words of the spec. -/
inductive TypedObject where
  | base (c : Credential)
  | custom (tag : String) (c : Credential)
  deriving DecidableEq, Repr

/-- Modelled from the spec: a registered producer, a capability with a pure
Accept predicate on the base credential and an Apply transformation taking
the base credential and the raw bytes. -/
structure CustomCredentialProducer where
  Accept : Credential → Bool
  Apply : Credential → String → Except String TypedObject

/-- Error outcomes of the extension registry resolution. -/
inductive ResolveError where
  | baseCredentialBuildFailed (msg : String)
  | extensionApplyFailed (msg : String)
  deriving DecidableEq, Repr

/-- Modelled from the spec: the producer iteration of the extension
registry. The first producer whose Accept returns true on the base
credential decides the outcome via its Apply; with no accepting producer
the base credential itself is returned. -/
def applyProducers (base : Credential) (rawCredential : String) :
    List CustomCredentialProducer → Except ResolveError TypedObject
  | [] => Except.ok (TypedObject.base base)
  | producer :: rest =>
    if producer.Accept base then
      match producer.Apply base rawCredential with
      | Except.error e => Except.error (ResolveError.extensionApplyFailed e)
      | Except.ok obj => Except.ok obj
    else
      applyProducers base rawCredential rest

/-- Modelled from the spec: CreateCustomCredential, the Resolve operation
of the extension registry (pkg/doc/verifiable/credential_extension.go is
not under src, only its test is): parse the base credential via the
external parser, then dispatch to the first accepting producer. -/
def CreateCustomCredential (rawCredential : String)
    (parse : String → Except String Credential)
    (producers : List CustomCredentialProducer) :
    Except ResolveError TypedObject :=
  match parse rawCredential with
  | Except.error e => Except.error (ResolveError.baseCredentialBuildFailed e)
  | Except.ok base => applyProducers base rawCredential producers

/-- Helper of the extension switch test: membership of a type tag in the
type list of a credential. -/
def hasType (allTypes : List String) (targetType : String) : Bool :=
  match allTypes with
  | [] => false
  | thatType :: rest => if thatType = targetType then true else hasType rest targetType

/-- A producer accepting credentials typed CredType1, as in the extension
switch test. -/
def cred1Producer : CustomCredentialProducer :=
  CustomCredentialProducer.mk
    (fun vc => hasType vc.Types "CredType1")
    (fun vc _ => Except.ok (TypedObject.custom "Cred1" vc))

/-- A producer accepting credentials typed CredType2, as in the extension
switch test. -/
def cred2Producer : CustomCredentialProducer :=
  CustomCredentialProducer.mk
    (fun vc => hasType vc.Types "CredType2")
    (fun vc _ => Except.ok (TypedObject.custom "Cred2" vc))

/-- A producer accepting every credential and always failing to apply, as
in the extension switch test. -/
def failingCredentialProducer : CustomCredentialProducer :=
  CustomCredentialProducer.mk
    (fun _ => true)
    (fun _ _ => Except.error "failed to apply credential extension")

/-- A base credential typed CredType2, as in the extension switch test. -/
def exBaseCred2 : Credential :=
  Credential.mk "http://example.edu/credentials/1872"
    ["https://www.w3.org/2018/credentials/v1"]
    ["VerifiableCredential", "CredType2"]

/-- A base credential with no custom type tag. -/
def exBasePlain : Credential :=
  Credential.mk "http://example.edu/credentials/1872"
    ["https://www.w3.org/2018/credentials/v1"]
    ["VerifiableCredential"]

/-- A parser oracle that always succeeds with the given credential. -/
def parseAs (c : Credential) : String → Except String Credential :=
  fun _ => Except.ok c

end Verifiable

namespace Presexch

open Verifiable

/-- Concrete fixtures used by the witness theorems. -/
def exSchemaURI : String := "https://example.org/schema/v1"

def exCred1 : Credential :=
  Credential.mk "cred-1" ["https://www.w3.org/2018/credentials/v1", exSchemaURI]
    ["VerifiableCredential"]

def exCred2 : Credential :=
  Credential.mk "cred-2" [exSchemaURI] ["VerifiableCredential"]

def exCredBad : Credential :=
  Credential.mk "cred-bad" ["https://other.example/ctx"] ["VerifiableCredential"]

def exSchema : Schema := Schema.mk [exSchemaURI] "" ""

def exDescD1 : InputDescriptor := InputDescriptor.mk "d1" (some exSchema) none

def exDescD2 : InputDescriptor := InputDescriptor.mk "d2" (some exSchema) none

def exDescNoSchema : InputDescriptor := InputDescriptor.mk "d1" none none

def exDef1 : PresentationDefinitions := PresentationDefinitions.mk "" "" [exDescD1]

def exDef12 : PresentationDefinitions :=
  PresentationDefinitions.mk "" "" [exDescD1, exDescD2]

def exDefNoSchema : PresentationDefinitions :=
  PresentationDefinitions.mk "" "" [exDescNoSchema]

def exMappingJSON (id path : String) : JSONValue :=
  JSONValue.obj [("id", JSONValue.str id), ("path", JSONValue.str path)]

def exSubmissionFields (entries : List JSONValue) : List (String × JSONValue) :=
  [(submissionProperty, JSONValue.obj [(descriptorMapProperty, JSONValue.arr entries)])]

def exVP (entries : List JSONValue) : Presentation :=
  Presentation.mk [PresentationSubmissionJSONLDContext]
    [PresentationSubmissionJSONLDType] (exSubmissionFields entries)

/-- A presentation whose type sequence lacks the submission type. -/
def exVPBadType : Presentation :=
  Presentation.mk [PresentationSubmissionJSONLDContext] ["VerifiablePresentation"] []

/-- A presentation with a valid envelope but no custom fields at all. -/
def exVPNoSubmission : Presentation :=
  Presentation.mk [PresentationSubmissionJSONLDContext]
    [PresentationSubmissionJSONLDType] []

/-- A presentation with a valid envelope whose submission object carries a
descriptor_map of the wrong shape (a string, not an array). -/
def exVPBadMap : Presentation :=
  Presentation.mk [PresentationSubmissionJSONLDContext]
    [PresentationSubmissionJSONLDType]
    [(submissionProperty, JSONValue.obj [(descriptorMapProperty, JSONValue.str "x")])]

/-- A selector oracle that always resolves to exCred1. -/
def exSel1 : Selector := fun _ => Except.ok exCred1

/-- A selector oracle that always resolves to the mismatching credential. -/
def exSelBad : Selector := fun _ => Except.ok exCredBad

/-- A selector oracle distinguishing two paths, for the duplicate-id
witness. -/
def exSelDup : Selector := fun path =>
  if path = "$.verifiableCredential[1]" then Except.ok exCred2 else Except.ok exCred1

end Presexch

/-!
Helper lemmas about the matching pipeline, shared by the claim theorems.
-/

namespace Presexch

open Verifiable

theorem stringsContain_iff (l : List String) (s : String) :
    stringsContain l s = true ↔ s ∈ l := by
  induction l with
  | nil => simp [stringsContain]
  | cons x rest ih =>
    simp only [stringsContain, List.mem_cons]
    by_cases h : x = s
    · simp [h]
    · simp [h, ih, Ne.symm h]

theorem mapLookup_mapInsert (m : ResultMap) (k : String) (v : Credential)
    (q : String) :
    mapLookup (mapInsert m k v) q = if k = q then some v else mapLookup m q := by
  induction m with
  | nil => simp [mapInsert, mapLookup]
  | cons e rest ih =>
    obtain ⟨k2, v2⟩ := e
    by_cases h1 : k2 = k
    · subst h1
      simp only [mapInsert, mapLookup, if_pos rfl]
      by_cases hq : k2 = q <;> simp [mapLookup, hq]
    · by_cases h2 : k2 = q
      · subst h2
        have hq : ¬ k = k2 := fun hh => h1 hh.symm
        simp [mapInsert, mapLookup, h1, hq]
      · simp [mapInsert, mapLookup, h1, h2, ih]

theorem findInputDescriptor_contain (l : List InputDescriptor) (id : String)
    (d : InputDescriptor) (h : findInputDescriptor id l = some d) :
    stringsContain (descriptorIDs l) id = true := by
  induction l with
  | nil => simp [findInputDescriptor] at h
  | cons x rest ih =>
    by_cases hx : x.ID = id
    · simp [descriptorIDs, stringsContain, hx]
    · simp only [findInputDescriptor, hx, if_false] at h
      simp only [descriptorIDs, List.map_cons, stringsContain, hx, if_false]
      simpa [descriptorIDs] using ih h

theorem firstMissingID_none (ids : List String) (m : ResultMap)
    (h : firstMissingID ids m = none) :
    ∀ id, id ∈ ids → (mapLookup m id).isSome = true := by
  induction ids with
  | nil => simp
  | cons x rest ih =>
    intro id hid
    cases hx : mapLookup m x with
    | none => simp [firstMissingID, hx] at h
    | some vc =>
      simp only [firstMissingID, hx] at h
      rcases List.mem_cons.mp hid with h1 | h1
      · subst h1
        simp [hx]
      · exact ih h id h1

theorem firstMissingID_append (pre : List String) (id : String)
    (post : List String) (m : ResultMap)
    (hpre : ∀ x, x ∈ pre → (mapLookup m x).isSome = true)
    (hid : mapLookup m id = none) :
    firstMissingID (pre ++ id :: post) m = some id := by
  induction pre with
  | nil => simp [firstMissingID, hid]
  | cons x rest ih =>
    have hx := hpre x (by simp)
    cases hlk : mapLookup m x with
    | none => simp [hlk] at hx
    | some vc =>
      simp only [List.cons_append, firstMissingID, hlk]
      exact ih (fun y hy => hpre y (by simp [hy]))

theorem match_ok_parts (p : PresentationDefinitions) (vp : Presentation)
    (sel : Selector) (m : ResultMap) (h : p.Match vp sel = MatchResult.ok m) :
    checkJSONLDContextType vp = none ∧
    ∃ dm, parseDescriptorMap vp = Except.ok dm ∧
      processMappings p sel dm [] = ProcessResult.done m ∧
      p.evalSubmissionRequirements m = none := by
  unfold PresentationDefinitions.Match at h
  cases henv : checkJSONLDContextType vp with
  | some e =>
    simp only [henv] at h
    exact (MatchResult.noConfusion h)
  | none =>
    simp only [henv] at h
    cases hparse : parseDescriptorMap vp with
    | error e =>
      simp only [hparse] at h
      exact (MatchResult.noConfusion h)
    | ok dm =>
      simp only [hparse] at h
      cases hproc : processMappings p sel dm [] with
      | error e =>
        simp only [hproc] at h
        exact (MatchResult.noConfusion h)
      | panic =>
        simp only [hproc] at h
        exact (MatchResult.noConfusion h)
      | done result =>
        simp only [hproc] at h
        cases hev : p.evalSubmissionRequirements result with
        | some e =>
          simp only [hev] at h
          exact (MatchResult.noConfusion h)
        | none =>
          simp only [hev, MatchResult.ok.injEq] at h
          subst h
          exact ⟨rfl, dm, rfl, hproc, hev⟩

end Presexch

namespace Presexch

open Verifiable

theorem processMappings_done_keys (p : PresentationDefinitions) (sel : Selector) :
    ∀ dm acc m, processMappings p sel dm acc = ProcessResult.done m →
      (∀ k, (mapLookup acc k).isSome = true →
        stringsContain (descriptorIDs p.InputDescriptors) k = true) →
      ∀ k, (mapLookup m k).isSome = true →
        stringsContain (descriptorIDs p.InputDescriptors) k = true := by
  intro dm
  induction dm with
  | nil =>
    intro acc m h hacc
    simp only [processMappings, ProcessResult.done.injEq] at h
    subst h
    exact hacc
  | cons entry rest ih =>
    intro acc m h hacc
    cases entry with
    | none =>
      simp only [processMappings] at h
      exact (ProcessResult.noConfusion h)
    | some mapping =>
      cases hcont : stringsContain (descriptorIDs p.InputDescriptors) mapping.ID with
      | false =>
        simp only [processMappings, hcont] at h
        exact (ProcessResult.noConfusion h)
      | true =>
        cases hsel : sel mapping.Path with
        | error msg =>
          simp only [processMappings, hcont, hsel] at h
          exact (ProcessResult.noConfusion h)
        | ok vc =>
          cases hfind : p.inputDescriptor mapping.ID with
          | none =>
            simp only [processMappings, hcont, hsel, hfind] at h
            exact (ProcessResult.noConfusion h)
          | some descriptor =>
            cases hsch : descriptor.Schema with
            | none =>
              simp only [processMappings, hcont, hsel, hfind, hsch] at h
              exact (ProcessResult.noConfusion h)
            | some schema =>
              cases hint : stringsIntersect vc.Context schema.URI with
              | false =>
                simp only [processMappings, hcont, hsel, hfind, hsch, hint] at h
                exact (ProcessResult.noConfusion h)
              | true =>
                have h2 : processMappings p sel rest (mapInsert acc mapping.ID vc)
                    = ProcessResult.done m := by
                  simpa [processMappings, hcont, hsel, hfind, hsch, hint] using h
                refine ih _ _ h2 ?_
                intro k hk
                rw [mapLookup_mapInsert] at hk
                by_cases hkid : mapping.ID = k
                · subst hkid
                  exact hcont
                · rw [if_neg hkid] at hk
                  exact hacc k hk

theorem processMappings_done_schema (p : PresentationDefinitions) (sel : Selector) :
    ∀ dm acc m, processMappings p sel dm acc = ProcessResult.done m →
      (∀ k vc, mapLookup acc k = some vc →
        ∃ d s, p.inputDescriptor k = some d ∧ d.Schema = some s ∧
          stringsIntersect vc.Context s.URI = true) →
      ∀ k vc, mapLookup m k = some vc →
        ∃ d s, p.inputDescriptor k = some d ∧ d.Schema = some s ∧
          stringsIntersect vc.Context s.URI = true := by
  intro dm
  induction dm with
  | nil =>
    intro acc m h hacc
    simp only [processMappings, ProcessResult.done.injEq] at h
    subst h
    exact hacc
  | cons entry rest ih =>
    intro acc m h hacc
    cases entry with
    | none =>
      simp only [processMappings] at h
      exact (ProcessResult.noConfusion h)
    | some mapping =>
      cases hcont : stringsContain (descriptorIDs p.InputDescriptors) mapping.ID with
      | false =>
        simp only [processMappings, hcont] at h
        exact (ProcessResult.noConfusion h)
      | true =>
        cases hsel : sel mapping.Path with
        | error msg =>
          simp only [processMappings, hcont, hsel] at h
          exact (ProcessResult.noConfusion h)
        | ok vc0 =>
          cases hfind : p.inputDescriptor mapping.ID with
          | none =>
            simp only [processMappings, hcont, hsel, hfind] at h
            exact (ProcessResult.noConfusion h)
          | some descriptor =>
            cases hsch : descriptor.Schema with
            | none =>
              simp only [processMappings, hcont, hsel, hfind, hsch] at h
              exact (ProcessResult.noConfusion h)
            | some schema =>
              cases hint : stringsIntersect vc0.Context schema.URI with
              | false =>
                simp only [processMappings, hcont, hsel, hfind, hsch, hint] at h
                exact (ProcessResult.noConfusion h)
              | true =>
                have h2 : processMappings p sel rest (mapInsert acc mapping.ID vc0)
                    = ProcessResult.done m := by
                  simpa [processMappings, hcont, hsel, hfind, hsch, hint] using h
                refine ih _ _ h2 ?_
                intro k vc hk
                rw [mapLookup_mapInsert] at hk
                by_cases hkid : mapping.ID = k
                · subst hkid
                  rw [if_pos rfl] at hk
                  cases hk
                  exact ⟨descriptor, schema, hfind, hsch, hint⟩
                · rw [if_neg hkid] at hk
                  exact hacc k vc hk

theorem processMappings_done_last (p : PresentationDefinitions) (sel : Selector) :
    ∀ dm acc m, processMappings p sel dm acc = ProcessResult.done m →
      ∀ id,
        (∀ path, lastEntryPath dm id = some path →
          ∃ vc, sel path = Except.ok vc ∧ mapLookup m id = some vc)
        ∧ (lastEntryPath dm id = none → mapLookup m id = mapLookup acc id) := by
  intro dm
  induction dm with
  | nil =>
    intro acc m h id
    simp only [processMappings, ProcessResult.done.injEq] at h
    subst h
    exact ⟨fun path hp => by simp [lastEntryPath] at hp, fun _ => rfl⟩
  | cons entry rest ih =>
    intro acc m h id
    cases entry with
    | none =>
      simp only [processMappings] at h
      exact (ProcessResult.noConfusion h)
    | some mapping =>
      cases hcont : stringsContain (descriptorIDs p.InputDescriptors) mapping.ID with
      | false =>
        simp only [processMappings, hcont] at h
        exact (ProcessResult.noConfusion h)
      | true =>
        cases hsel : sel mapping.Path with
        | error msg =>
          simp only [processMappings, hcont, hsel] at h
          exact (ProcessResult.noConfusion h)
        | ok vc0 =>
          cases hfind : p.inputDescriptor mapping.ID with
          | none =>
            simp only [processMappings, hcont, hsel, hfind] at h
            exact (ProcessResult.noConfusion h)
          | some descriptor =>
            cases hsch : descriptor.Schema with
            | none =>
              simp only [processMappings, hcont, hsel, hfind, hsch] at h
              exact (ProcessResult.noConfusion h)
            | some schema =>
              cases hint : stringsIntersect vc0.Context schema.URI with
              | false =>
                simp only [processMappings, hcont, hsel, hfind, hsch, hint] at h
                exact (ProcessResult.noConfusion h)
              | true =>
                have h2 : processMappings p sel rest (mapInsert acc mapping.ID vc0)
                    = ProcessResult.done m := by
                  simpa [processMappings, hcont, hsel, hfind, hsch, hint] using h
                have hih := ih (mapInsert acc mapping.ID vc0) m h2 id
                constructor
                · intro path hp
                  cases hrest : lastEntryPath rest id with
                  | some q =>
                    simp only [lastEntryPath, hrest] at hp
                    cases hp
                    exact hih.1 path (by rw [hrest])
                  | none =>
                    simp only [lastEntryPath, hrest] at hp
                    by_cases hkid : mapping.ID = id
                    · rw [if_pos hkid] at hp
                      cases hp
                      refine ⟨vc0, hsel, ?_⟩
                      rw [hih.2 hrest, mapLookup_mapInsert, if_pos hkid]
                    · rw [if_neg hkid] at hp
                      exact (Option.noConfusion hp)
                · intro hnone
                  cases hrest : lastEntryPath rest id with
                  | some q =>
                    simp only [lastEntryPath, hrest] at hnone
                    exact (Option.noConfusion hnone)
                  | none =>
                    simp only [lastEntryPath, hrest] at hnone
                    by_cases hkid : mapping.ID = id
                    · rw [if_pos hkid] at hnone
                      exact (Option.noConfusion hnone)
                    · rw [hih.2 hrest, mapLookup_mapInsert, if_neg hkid]

end Presexch

namespace Presexch

open Verifiable

/-- Claim C1: Match returns a result mapping without error only if every
InputDescriptor id of the definition is a key of the mapping; and when,
after all descriptor-map entries are processed, some descriptor id is
missing, Match fails with the UnsatisfiedDescriptor error naming the first
missing descriptor id in descriptor order. -/
theorem claim_C1 (p : PresentationDefinitions) (vp : Presentation) (sel : Selector) :
    (∀ m, p.Match vp sel = MatchResult.ok m →
      ∀ id, id ∈ descriptorIDs p.InputDescriptors → (mapLookup m id).isSome = true)
    ∧ (∀ dm m pre id post,
        checkJSONLDContextType vp = none →
        parseDescriptorMap vp = Except.ok dm →
        processMappings p sel dm [] = ProcessResult.done m →
        descriptorIDs p.InputDescriptors = pre ++ id :: post →
        (∀ x, x ∈ pre → (mapLookup m x).isSome = true) →
        mapLookup m id = none →
        p.Match vp sel = MatchResult.error (MatchError.unsatisfiedDescriptor id)) := by
  constructor
  · intro m hm id hid
    obtain ⟨henv, dm, hparse, hproc, hev⟩ := match_ok_parts p vp sel m hm
    unfold PresentationDefinitions.evalSubmissionRequirements at hev
    cases hfm : firstMissingID (descriptorIDs p.InputDescriptors) m with
    | some x =>
      simp only [hfm] at hev
      exact (Option.noConfusion hev)
    | none =>
      exact firstMissingID_none _ _ hfm id hid
  · intro dm m pre id post henv hparse hproc hlist hpre hid
    have hfm : firstMissingID (descriptorIDs p.InputDescriptors) m = some id := by
      rw [hlist]
      exact firstMissingID_append pre id post m hpre hid
    have hev : p.evalSubmissionRequirements m
        = some (MatchError.unsatisfiedDescriptor id) := by
      unfold PresentationDefinitions.evalSubmissionRequirements
      simp only [hfm]
    unfold PresentationDefinitions.Match
    simp only [henv, hparse, hproc, hev]

/-- Claim C2: every credential in a successful result mapping shares at
least one context element with the Schema URI sequence of its input
descriptor; and a processed mapping whose selected credential has an empty
intersection with the descriptor Schema URIs makes the loop fail with the
SchemaMismatch error naming the descriptor id, the schema URIs and the
credential context. -/
theorem claim_C2 (p : PresentationDefinitions) (vp : Presentation) (sel : Selector) :
    (∀ m k vc, p.Match vp sel = MatchResult.ok m → mapLookup m k = some vc →
      ∃ d s, p.inputDescriptor k = some d ∧ d.Schema = some s ∧
        stringsIntersect vc.Context s.URI = true)
    ∧ (∀ mapping rest acc vc d s,
        stringsContain (descriptorIDs p.InputDescriptors) mapping.ID = true →
        sel mapping.Path = Except.ok vc →
        p.inputDescriptor mapping.ID = some d →
        d.Schema = some s →
        stringsIntersect vc.Context s.URI = false →
        processMappings p sel (some mapping :: rest) acc
          = ProcessResult.error (MatchError.schemaMismatch d.ID s.URI vc.Context)) := by
  constructor
  · intro m k vc hm hk
    obtain ⟨henv, dm, hparse, hproc, hev⟩ := match_ok_parts p vp sel m hm
    refine processMappings_done_schema p sel dm [] m hproc ?_ k vc hk
    intro x vcx hx
    simp [mapLookup] at hx
  · intro mapping rest acc vc d s hcont hsel hfind hsch hint
    simp [processMappings, hcont, hsel, hfind, hsch, hint]

/-- Claim C3: Match fails immediately with a NotASubmission error, with no
partial result, when the presentation context sequence lacks the fixed
submission context string or its type sequence lacks the fixed submission
type string; the check precedes all other processing since it holds for
every definition, every selector and every custom fields document. -/
theorem claim_C3 (p : PresentationDefinitions) (vp : Presentation) (sel : Selector)
    (h : stringsContain vp.Context PresentationSubmissionJSONLDContext = false
       ∨ stringsContain vp.Types PresentationSubmissionJSONLDType = false) :
    ∃ e, p.Match vp sel = MatchResult.error e ∧ e.isNotASubmission = true := by
  cases hc : stringsContain vp.Context PresentationSubmissionJSONLDContext with
  | false =>
    refine ⟨MatchError.notASubmissionContext, ?_, rfl⟩
    unfold PresentationDefinitions.Match
    simp [checkJSONLDContextType, hc]
  | true =>
    have ht : stringsContain vp.Types PresentationSubmissionJSONLDType = false := by
      rcases h with h | h
      · rw [hc] at h
        exact (Bool.noConfusion h)
      · exact h
    refine ⟨MatchError.notASubmissionType, ?_, rfl⟩
    unfold PresentationDefinitions.Match
    simp [checkJSONLDContextType, hc, ht]

/-- Claim C4: a processed descriptor-map entry whose id equals no input
descriptor id aborts the loop with the UnknownDescriptorID error naming
the offending id, whatever the later entries are; and Match itself so
fails when such an entry heads the descriptor map. -/
theorem claim_C4 (p : PresentationDefinitions) (vp : Presentation) (sel : Selector)
    (mapping : InputDescriptorMapping) (rest : List (Option InputDescriptorMapping))
    (acc : ResultMap)
    (h : stringsContain (descriptorIDs p.InputDescriptors) mapping.ID = false) :
    processMappings p sel (some mapping :: rest) acc
        = ProcessResult.error (MatchError.unknownDescriptorID mapping.ID)
    ∧ (checkJSONLDContextType vp = none →
       parseDescriptorMap vp = Except.ok (some mapping :: rest) →
       p.Match vp sel = MatchResult.error (MatchError.unknownDescriptorID mapping.ID)) := by
  constructor
  · simp [processMappings, h]
  · intro henv hparse
    have hstep : processMappings p sel (some mapping :: rest) []
        = ProcessResult.error (MatchError.unknownDescriptorID mapping.ID) := by
      simp [processMappings, h]
    unfold PresentationDefinitions.Match
    simp only [henv, hparse, hstep]

/-- Claim C5: for a presentation passing the envelope check, Match returns
immediately with a MalformedSubmission error when the custom fields lack a
presentation_submission entry that is a JSON object, or when that object
lacks a descriptor_map entry that is a JSON array. -/
theorem claim_C5 (p : PresentationDefinitions) (vp : Presentation) (sel : Selector)
    (henv : checkJSONLDContextType vp = none) :
    ((∀ fields, lookupField vp.CustomFields submissionProperty
          ≠ some (JSONValue.obj fields)) →
       p.Match vp sel = MatchResult.error (MatchError.malformedSubmission submissionProperty))
    ∧ (∀ submission,
        lookupField vp.CustomFields submissionProperty = some (JSONValue.obj submission) →
        (∀ elems, lookupField submission descriptorMapProperty
            ≠ some (JSONValue.arr elems)) →
        p.Match vp sel
          = MatchResult.error (MatchError.malformedSubmission descriptorMapProperty)) := by
  constructor
  · intro hno
    have hp : parseDescriptorMap vp
        = Except.error (MatchError.malformedSubmission submissionProperty) := by
      unfold parseDescriptorMap
      cases hlk : lookupField vp.CustomFields submissionProperty with
      | none => rfl
      | some v =>
        cases v with
        | obj fields => exact absurd hlk (hno fields)
        | null => rfl
        | boolean b => rfl
        | num n => rfl
        | str s => rfl
        | arr elems => rfl
    unfold PresentationDefinitions.Match
    simp only [henv, hp]
  · intro submission hsub hno
    have hp : parseDescriptorMap vp
        = Except.error (MatchError.malformedSubmission descriptorMapProperty) := by
      unfold parseDescriptorMap
      cases hlk : lookupField submission descriptorMapProperty with
      | none => simp only [hsub, hlk]
      | some v =>
        cases v with
        | arr elems => exact absurd hlk (hno elems)
        | null => simp only [hsub, hlk]
        | boolean b => simp only [hsub, hlk]
        | num n => simp only [hsub, hlk]
        | str s => simp only [hsub, hlk]
        | obj fields => simp only [hsub, hlk]
    unfold PresentationDefinitions.Match
    simp only [henv, hp]

/-- Claim C6: when two descriptor-map entries share an id and Match
succeeds, the result maps that id to the credential selected at the path
of the last entry with that id in descriptor-map order, silently and
without error. -/
theorem claim_C6 (p : PresentationDefinitions) (vp : Presentation) (sel : Selector)
    (dm : List (Option InputDescriptorMapping)) (m : ResultMap) (id path : String)
    (vc : Credential)
    (hm : p.Match vp sel = MatchResult.ok m)
    (hparse : parseDescriptorMap vp = Except.ok dm)
    (hlast : lastEntryPath dm id = some path)
    (hsel : sel path = Except.ok vc) :
    mapLookup m id = some vc := by
  obtain ⟨henv, dm0, hparse0, hproc, hev⟩ := match_ok_parts p vp sel m hm
  rw [hparse] at hparse0
  injection hparse0 with hdm
  subst hdm
  obtain ⟨vc0, hsel0, hlk⟩ := (processMappings_done_last p sel dm [] m hproc id).1 path hlast
  rw [hsel] at hsel0
  injection hsel0 with hv
  subst hv
  exact hlk

/-- Claim C9: when a descriptor-map entry resolves to a credential and its
id matches an input descriptor whose Schema field is absent, Match
dereferences the nil Schema pointer and panics instead of returning an
error. -/
theorem claim_C9 (p : PresentationDefinitions) (vp : Presentation) (sel : Selector)
    (mapping : InputDescriptorMapping) (rest : List (Option InputDescriptorMapping))
    (d : InputDescriptor) (vc : Credential)
    (henv : checkJSONLDContextType vp = none)
    (hparse : parseDescriptorMap vp = Except.ok (some mapping :: rest))
    (hfound : p.inputDescriptor mapping.ID = some d)
    (hschema : d.Schema = none)
    (hsel : sel mapping.Path = Except.ok vc) :
    p.Match vp sel = MatchResult.panic := by
  have hcont : stringsContain (descriptorIDs p.InputDescriptors) mapping.ID = true :=
    findInputDescriptor_contain p.InputDescriptors mapping.ID d hfound
  have hstep : processMappings p sel (some mapping :: rest) [] = ProcessResult.panic := by
    simp [processMappings, hcont, hsel, hfound, hschema]
  unfold PresentationDefinitions.Match
  simp only [henv, hparse, hstep]

/-- Claim C10: the key set of a successful result mapping equals the set
of InputDescriptor ids of the definition exactly: a string is a key of the
mapping if and only if it occurs among the descriptor ids. -/
theorem claim_C10 (p : PresentationDefinitions) (vp : Presentation) (sel : Selector)
    (m : ResultMap) (hm : p.Match vp sel = MatchResult.ok m) (k : String) :
    (mapLookup m k).isSome = true
      ↔ stringsContain (descriptorIDs p.InputDescriptors) k = true := by
  obtain ⟨henv, dm, hparse, hproc, hev⟩ := match_ok_parts p vp sel m hm
  constructor
  · intro hk
    refine processMappings_done_keys p sel dm [] m hproc ?_ k hk
    intro x hx
    simp [mapLookup] at hx
  · intro hk
    unfold PresentationDefinitions.evalSubmissionRequirements at hev
    cases hfm : firstMissingID (descriptorIDs p.InputDescriptors) m with
    | some x =>
      simp only [hfm] at hev
      exact (Option.noConfusion hev)
    | none =>
      exact firstMissingID_none _ _ hfm k ((stringsContain_iff _ _).mp hk)

end Presexch

namespace Verifiable

theorem applyProducers_skip (base : Credential) (raw : String) :
    ∀ (pre rest2 : List CustomCredentialProducer),
      (∀ q, q ∈ pre → q.Accept base = false) →
      applyProducers base raw (pre ++ rest2) = applyProducers base raw rest2 := by
  intro pre
  induction pre with
  | nil =>
    intro rest2 _
    rfl
  | cons q rest ih =>
    intro rest2 hpre
    have hq := hpre q (by simp)
    simp only [List.cons_append, applyProducers, hq, Bool.false_eq_true, if_false]
    exact ih rest2 (fun x hx => hpre x (by simp [hx]))

/-- Claim C7: with a successful base parse, the outcome of
CreateCustomCredential is decided by the first producer in list order
whose Accept returns true on the base credential: its Apply value is the
result on success, and an ExtensionApplyFailed error aborts the whole
resolution on failure, with no later producer tried and no fallback. -/
theorem claim_C7 (parse : String → Except String Credential) (raw : String)
    (base : Credential) (pre : List CustomCredentialProducer)
    (producer : CustomCredentialProducer) (post : List CustomCredentialProducer)
    (hparse : parse raw = Except.ok base)
    (hpre : ∀ q, q ∈ pre → q.Accept base = false)
    (haccept : producer.Accept base = true) :
    CreateCustomCredential raw parse (pre ++ producer :: post)
      = match producer.Apply base raw with
        | Except.ok obj => Except.ok obj
        | Except.error e => Except.error (ResolveError.extensionApplyFailed e) := by
  unfold CreateCustomCredential
  simp only [hparse]
  rw [applyProducers_skip base raw pre (producer :: post) hpre]
  cases happ : producer.Apply base raw with
  | ok obj => simp [applyProducers, haccept, happ]
  | error e => simp [applyProducers, haccept, happ]

/-- Claim C8: with a successful base parse and no producer whose Accept
returns true on the base credential, CreateCustomCredential returns the
base credential itself, tagged as the base representation, without
error. -/
theorem claim_C8 (parse : String → Except String Credential) (raw : String)
    (base : Credential) (producers : List CustomCredentialProducer)
    (hparse : parse raw = Except.ok base)
    (hnone : ∀ q, q ∈ producers → q.Accept base = false) :
    CreateCustomCredential raw parse producers = Except.ok (TypedObject.base base) := by
  unfold CreateCustomCredential
  simp only [hparse]
  have h := applyProducers_skip base raw producers [] hnone
  rw [List.append_nil] at h
  rw [h]
  rfl

end Verifiable

namespace Presexch

open Verifiable

/-- Witness for C1: a one-descriptor definition matched by one mapping
covers its id, and a two-descriptor definition with a submission mapping
only d1 fails naming d2, the first missing descriptor id. -/
theorem claim_C1_witness :
    (mapLookup [("d1", exCred1)] "d1").isSome = true
    ∧ exDef12.Match (exVP [exMappingJSON "d1" "$.verifiableCredential[0]"]) exSel1
        = MatchResult.error (MatchError.unsatisfiedDescriptor "d2") := by
  constructor
  · exact (claim_C1 exDef1 (exVP [exMappingJSON "d1" "$.verifiableCredential[0]"]) exSel1).1
      [("d1", exCred1)] (by decide) "d1" (by decide)
  · exact (claim_C1 exDef12 (exVP [exMappingJSON "d1" "$.verifiableCredential[0]"]) exSel1).2
      [some (InputDescriptorMapping.mk "d1" "$.verifiableCredential[0]")]
      [("d1", exCred1)] ["d1"] "d2" [] (by decide) rfl (by decide) (by decide)
      (by decide) (by decide)

/-- Witness for C2: the matched credential of a successful run intersects
its descriptor schema URIs, and a selected credential with disjoint
context produces the SchemaMismatch error naming id, URIs and context. -/
theorem claim_C2_witness :
    (∃ d s, exDef1.inputDescriptor "d1" = some d ∧ d.Schema = some s ∧
        stringsIntersect exCred1.Context s.URI = true)
    ∧ processMappings exDef1 exSelBad
        [some (InputDescriptorMapping.mk "d1" "$.verifiableCredential[0]")] []
        = ProcessResult.error
            (MatchError.schemaMismatch exDescD1.ID exSchema.URI exCredBad.Context) := by
  constructor
  · exact (claim_C2 exDef1 (exVP [exMappingJSON "d1" "$.verifiableCredential[0]"]) exSel1).1
      [("d1", exCred1)] "d1" exCred1 (by decide) (by decide)
  · exact (claim_C2 exDef1 (exVP []) exSelBad).2
      (InputDescriptorMapping.mk "d1" "$.verifiableCredential[0]") [] [] exCredBad
      exDescD1 exSchema (by decide) rfl rfl rfl (by decide)

/-- Witness for C3: a presentation without the submission type fails with
a NotASubmission error. -/
theorem claim_C3_witness :
    ∃ e, exDef1.Match exVPBadType exSel1 = MatchResult.error e
      ∧ e.isNotASubmission = true :=
  claim_C3 exDef1 exVPBadType exSel1 (Or.inr (by decide))

/-- Witness for C4: a mapping with the unknown id dX aborts the loop and
fails Match with the UnknownDescriptorID error naming dX. -/
theorem claim_C4_witness :
    processMappings exDef1 exSel1
        [some (InputDescriptorMapping.mk "dX" "$.verifiableCredential[0]")] []
      = ProcessResult.error (MatchError.unknownDescriptorID "dX")
    ∧ exDef1.Match (exVP [exMappingJSON "dX" "$.verifiableCredential[0]"]) exSel1
      = MatchResult.error (MatchError.unknownDescriptorID "dX") := by
  have h := claim_C4 exDef1 (exVP [exMappingJSON "dX" "$.verifiableCredential[0]"]) exSel1
    (InputDescriptorMapping.mk "dX" "$.verifiableCredential[0]") [] [] (by decide)
  exact ⟨h.1, h.2 (by decide) rfl⟩

/-- Witness for C5: a presentation without custom fields and one whose
descriptor_map is a string both fail with the MalformedSubmission
error. -/
theorem claim_C5_witness :
    exDef1.Match exVPNoSubmission exSel1
        = MatchResult.error (MatchError.malformedSubmission submissionProperty)
    ∧ exDef1.Match exVPBadMap exSel1
        = MatchResult.error (MatchError.malformedSubmission descriptorMapProperty) := by
  constructor
  · exact (claim_C5 exDef1 exVPNoSubmission exSel1 (by decide)).1
      (by
        intro fields h
        simp [exVPNoSubmission, lookupField] at h)
  · exact (claim_C5 exDef1 exVPBadMap exSel1 (by decide)).2
      [(descriptorMapProperty, JSONValue.str "x")]
      rfl
      (by
        intro elems h
        simp [lookupField] at h)

/-- Witness for C6: two entries both mapping d1 to different credentials;
the result binds d1 to the credential of the later entry. -/
theorem claim_C6_witness :
    mapLookup [("d1", exCred2)] "d1" = some exCred2 :=
  claim_C6 exDef1
    (exVP [exMappingJSON "d1" "$.verifiableCredential[0]",
           exMappingJSON "d1" "$.verifiableCredential[1]"])
    exSelDup
    [some (InputDescriptorMapping.mk "d1" "$.verifiableCredential[0]"),
     some (InputDescriptorMapping.mk "d1" "$.verifiableCredential[1]")]
    [("d1", exCred2)] "d1" "$.verifiableCredential[1]" exCred2
    (by decide) rfl (by decide) rfl

/-- Witness for C9: a definition whose only descriptor has no Schema makes
Match panic on a resolving mapping. -/
theorem claim_C9_witness :
    exDefNoSchema.Match (exVP [exMappingJSON "d1" "$.verifiableCredential[0]"]) exSel1
        = MatchResult.panic :=
  claim_C9 exDefNoSchema (exVP [exMappingJSON "d1" "$.verifiableCredential[0]"]) exSel1
    (InputDescriptorMapping.mk "d1" "$.verifiableCredential[0]") [] exDescNoSchema exCred1
    (by decide) rfl rfl rfl rfl

/-- Witness for C10: on a successful one-descriptor match, a string is a
result key exactly when it occurs among descriptor ids; instantiated at
the non-key dX. -/
theorem claim_C10_witness :
    ((mapLookup [("d1", exCred1)] "dX").isSome = true
      ↔ stringsContain (descriptorIDs exDef1.InputDescriptors) "dX" = true) :=
  claim_C10 exDef1 (exVP [exMappingJSON "d1" "$.verifiableCredential[0]"]) exSel1
    [("d1", exCred1)] (by decide) "dX"

end Presexch

namespace Verifiable

/-- Witness for C7: with two producers registered and a base credential
typed CredType2, the second producer decides the result; and a sole
failing producer aborts the resolution with ExtensionApplyFailed. -/
theorem claim_C7_witness :
    CreateCustomCredential "raw" (parseAs exBaseCred2)
        [cred1Producer, cred2Producer, failingCredentialProducer]
      = Except.ok (TypedObject.custom "Cred2" exBaseCred2)
    ∧ CreateCustomCredential "raw" (parseAs exBasePlain) [failingCredentialProducer]
      = Except.error
          (ResolveError.extensionApplyFailed "failed to apply credential extension") := by
  constructor
  · exact (claim_C7 (parseAs exBaseCred2) "raw" exBaseCred2 [cred1Producer]
      cred2Producer [failingCredentialProducer] rfl
      (by
        intro q hq
        rcases List.mem_singleton.mp hq with rfl
        decide)
      (by decide)).trans rfl
  · exact (claim_C7 (parseAs exBasePlain) "raw" exBasePlain []
      failingCredentialProducer [] rfl
      (by
        intro q hq
        exact absurd hq (List.not_mem_nil q))
      (by decide)).trans rfl

/-- Witness for C8: a base credential with no custom type tag is returned
as the base representation when no registered producer accepts it. -/
theorem claim_C8_witness :
    CreateCustomCredential "raw" (parseAs exBasePlain) [cred1Producer, cred2Producer]
      = Except.ok (TypedObject.base exBasePlain) :=
  claim_C8 (parseAs exBasePlain) "raw" exBasePlain [cred1Producer, cred2Producer]
    rfl
    (by
      intro q hq
      rcases List.mem_cons.mp hq with rfl | hq2
      · decide
      · rcases List.mem_singleton.mp hq2 with rfl
        decide)

end Verifiable
